import Mathlib

/-!
Formal model of the Codevault snippet manager (source: src/main.rs and
src/models.rs of the repository).  The persisted collection is a list of
snippets; every operation reads the whole collection and rewrites it.  All
definitions below are translated from the Rust source; string primitives
(lowercasing, trimming, splitting, substring search) are implemented on the
underlying character lists so that every definition evaluates inside the
kernel.  Rust `u32` arithmetic is modelled on `Nat` with an explicit
`% 2 ^ 32` where the source can overflow.
-/

namespace Codevault

/-! ### Character-level string primitives (Rust `str` methods) -/

/-- Rust `str::to_lowercase`, restricted to the ASCII case mapping
(`Char.toLower` lowers exactly the letters `A`-`Z`). -/
def to_lowercase (s : String) : String := String.mk (s.data.map Char.toLower)

/-- Characters removed by Rust `str::trim`. -/
def trimChars (l : List Char) : List Char :=
  ((l.dropWhile Char.isWhitespace).reverse.dropWhile Char.isWhitespace).reverse

/-- Rust `str::trim`: whitespace removed from both ends. -/
def trimStr (s : String) : String := String.mk (trimChars s.data)

/-- Rust `str::split(sep)` worker: accumulates the current piece reversed. -/
def splitCharGo (sep : Char) : List Char → List Char → List String
  | [], acc => [String.mk acc.reverse]
  | c :: rest, acc =>
    if c = sep then String.mk acc.reverse :: splitCharGo sep rest []
    else splitCharGo sep rest (c :: acc)

/-- Rust `str::split(sep)` for a single-character separator. -/
def splitChar (sep : Char) (s : String) : List String := splitCharGo sep s.data []

/-- Is `p` a prefix of `h` (character lists)? -/
def startsWithChars : List Char → List Char → Bool
  | _, [] => true
  | [], _ :: _ => false
  | h :: hs, p :: ps => (h = p) && startsWithChars hs ps

/-- Does `hay` contain `pat` as a contiguous substring?  (Rust `str::contains`
with a string pattern; the empty pattern matches everywhere.) -/
def hasSubChars : List Char → List Char → Bool
  | [], pat => startsWithChars [] pat
  | h :: t, pat => startsWithChars (h :: t) pat || hasSubChars t pat

/-- Rust `hay.contains(pat)`. -/
def contains_str (hay pat : String) : Bool := hasSubChars hay.data pat.data

/-- Strip one trailing carriage return (part of Rust `str::lines`). -/
def stripCrEnd (s : String) : String :=
  if s.data.getLast? = some '\r' then String.mk s.data.dropLast else s

/-- Rust `str::lines`: split on newline, drop a final empty piece produced by a
trailing newline, and strip one trailing CR from each line.  The empty string
has no lines. -/
def rustLines (s : String) : List String :=
  if s.data.isEmpty then []
  else
    let parts := splitCharGo '\n' s.data []
    let parts2 := if parts.getLast? = some "" then parts.dropLast else parts
    parts2.map stripCrEnd

/-- Rust `str::parse::<u32>()`: an optional leading plus sign, then one or more
decimal digits, value below `2 ^ 32`; anything else is a parse error. -/
def parse_u32 (s : String) : Option Nat :=
  let cs := match s.data with
            | '+' :: r => r
            | r => r
  if cs.isEmpty then none
  else if cs.all (fun c => '0' ≤ c && c ≤ '9') then
    let n := cs.foldl (fun a c => a * 10 + (c.toNat - 48)) 0
    if n < 2 ^ 32 then some n else none
  else none

/-! ### AnsiWidth: `strip_ansi_codes` (src/models.rs)

The source removes every match of the regex `\x1B\[[0-9;]*[a-zA-Z]` from the
input.  A match is the escape character, an opening bracket, a maximal run of
digits and semicolons, and one ASCII letter; at a position where this pattern
does not match, the scanner keeps the character and resumes one position
later.  The recursion is driven by a character-count fuel so that it is
structural and evaluates inside the kernel. -/

/-- The regex class `[0-9;]` of CSI parameter characters. -/
def isCsiParam (c : Char) : Bool := ('0' ≤ c && c ≤ '9') || c = ';'

/-- The regex class `[a-zA-Z]` of CSI final letters. -/
def isCsiFinal (c : Char) : Bool := ('a' ≤ c && c ≤ 'z') || ('A' ≤ c && c ≤ 'Z')

/-- Given the characters following an escape character, if they start with a
bracket, a run of parameter characters and a final letter, return what follows
the match; otherwise `none`.  (`[0-9;]*` is greedy, and since parameter
characters and final letters are disjoint classes the regex match is exactly
this deterministic scan.) -/
def csiTail (cs : List Char) : Option (List Char) :=
  match cs with
  | c :: rest =>
    if c = '[' then
      match rest.dropWhile isCsiParam with
      | d :: rest2 => if isCsiFinal d then some rest2 else none
      | [] => none
    else none
  | [] => none

/-- Fuel-indexed scanner removing every CSI match; the fuel only has to cover
the length of the list. -/
def stripAnsiGo : Nat → List Char → List Char
  | _, [] => []
  | Nat.succ n, c :: cs =>
    if c = '\x1b' then
      match csiTail cs with
      | some rest => stripAnsiGo n rest
      | none => c :: stripAnsiGo n cs
    else c :: stripAnsiGo n cs
  | 0, l => l

/-- Remove every ANSI CSI escape sequence from a character list. -/
def stripAnsiList (l : List Char) : List Char := stripAnsiGo l.length l

/-- `strip_ansi_codes` of src/models.rs. -/
def strip_ansi_codes (s : String) : String := String.mk (stripAnsiList s.data)

/-- The visible width of a string: its character count after stripping ANSI
escape sequences (the source computes `strip_ansi_codes(s).chars().count()`). -/
def visibleWidth (s : String) : Nat := (strip_ansi_codes s).length

/-! ### Data model (src/models.rs) -/

/-- The persisted snippet record. -/
structure Snippet where
  tag : String
  description : Option String
  code : String
  timestamp : String
  language : Option String
  id : Nat
deriving DecidableEq

/-- Result of reading the backing JSON file: the file may be absent, present
but unparseable, or a well-formed list of snippets. -/
inductive LoadResult where
  | missing : LoadResult
  | corrupt : LoadResult
  | ok : List Snippet → LoadResult
deriving DecidableEq

/-! ### IdAllocator: `generate_unique_id` (src/main.rs lines 377-397) -/

/-- `snippets.iter().map(|s| s.id).max().unwrap_or(0)`. -/
def maxId (l : List Snippet) : Nat := (l.map Snippet.id).foldr max 0

/-- `generate_unique_id`: an unreadable file returns 1 immediately; an absent
file leaves the running maximum at 0; otherwise the maximum existing id is
incremented (u32 addition, hence the modulus). -/
def generate_unique_id : LoadResult → Nat
  | LoadResult.missing => (0 + 1) % 2 ^ 32
  | LoadResult.corrupt => 1
  | LoadResult.ok l => (maxId l + 1) % 2 ^ 32

/-! ### SnippetStore: `save_snippet` (lines 644-672) and capture -/

/-- Error text used by `save_snippet` when the existing file does not
deserialize (the serde error detail is irrelevant to the model). -/
def deserialize_err_msg : String := "\x1b[31merror:\x1b[0m unable deserializing snippets"

/-- `save_snippet`: load the existing collection (an absent file starts an
empty one, an unparseable file is an error), append the snippet, and persist
the whole list. -/
def save_snippet (sn : Snippet) (store : LoadResult) : Except String (List Snippet) :=
  match store with
  | LoadResult.missing => Except.ok [sn]
  | LoadResult.corrupt => Except.error deserialize_err_msg
  | LoadResult.ok l => Except.ok (l ++ [sn])

/-- The capture path of `main`: a new snippet is built with
`id: generate_unique_id(DATA_FILE)` and saved to the same store. -/
def capture_snippet (store : LoadResult) (tag : String) (description : Option String)
    (code timestamp : String) (language : Option String) : Except String (List Snippet) :=
  save_snippet
    { tag := tag, description := description, code := code, timestamp := timestamp,
      language := language, id := generate_unique_id store } store

/-! ### FilterEngine: `view_snippets` (lines 684-756) -/

/-- `q.split(',').map(|s| s.trim())`. -/
def termList (q : String) : List String := (splitChar ',' q).map trimStr

/-- The tag dimension: some comma-separated term is a case-insensitive
substring of the snippet tag; an unsupplied dimension always passes. -/
def tag_match (q : Option String) (s : Snippet) : Bool :=
  match q with
  | some tag =>
    (termList tag).any (fun t => contains_str (to_lowercase s.tag) (to_lowercase t))
  | none => true

/-- The language dimension: an absent snippet language never matches
(`.map(..).unwrap_or(false)` in the source). -/
def language_match (q : Option String) (s : Snippet) : Bool :=
  match q with
  | some language =>
    (termList language).any (fun t =>
      match s.language with
      | some lang => contains_str (to_lowercase lang) (to_lowercase t)
      | none => false)
  | none => true

/-- The keyword dimension: a term may occur in the tag, the description (when
present) or the code. -/
def keyword_match (q : Option String) (s : Snippet) : Bool :=
  match q with
  | some keyword =>
    (termList keyword).any (fun k =>
      contains_str (to_lowercase s.tag) (to_lowercase k) ||
      (match s.description with
       | some desc => contains_str (to_lowercase desc) (to_lowercase k)
       | none => false) ||
      contains_str (to_lowercase s.code) (to_lowercase k))
  | none => true

/-- The dimension filter of `view_snippets`: the three dimensions are
conjoined. -/
def filterSnippets (l : List Snippet) (tq lq kq : Option String) : List Snippet :=
  l.filter (fun s => tag_match tq s && language_match lq s && keyword_match kq s)

/-- Error text of `view_snippets` for a missing id. -/
def view_id_missing_msg (id : Nat) : String :=
  " snippet ID '\x1b[1;33m" ++ Nat.repr id ++ "\x1b[0m' does not exist in the collection"

/-- `view_snippets` on an already-loaded collection: dimension filtering, then
an optional exact-id narrowing step (`position` + `vec![..]` keeps the first
snippet with the id and drops everything else; no match is an error). -/
def view_snippets (l : List Snippet) (id : Option Nat) (tq lq kq : Option String) :
    Except String (List Snippet) :=
  let filtered := filterSnippets l tq lq kq
  match id with
  | some i =>
    match filtered.find? (fun s => s.id == i) with
    | some s => Except.ok [s]
    | none => Except.error (view_id_missing_msg i)
  | none => Except.ok filtered

/-! ### EditResolver and `edit_snippet` (lines 758-976) -/

/-- The interactive answers supplied during an edit session: the three prompt
lines (read with `read_line`, so possibly blank) and the replacement code body
(read with `read_to_string`). -/
structure EditInputs where
  newTag : String
  newDescription : String
  newLanguage : String
  newCode : String
deriving DecidableEq

/-- The field updates of `edit_snippet`: a non-blank answer replaces the tag,
the description and language are set from a non-blank answer and cleared to
`None` on a blank one, and the code is replaced unconditionally. -/
def applyEdits (sn : Snippet) (inp : EditInputs) : Snippet :=
  { sn with
    tag := if trimStr inp.newTag = "" then sn.tag else trimStr inp.newTag,
    description :=
      if trimStr inp.newDescription = "" then none else some (trimStr inp.newDescription),
    language :=
      if trimStr inp.newLanguage = "" then none else some (trimStr inp.newLanguage),
    code := inp.newCode }

/-- `position(|s| s.id == id)` followed by `remove(index)`: the first snippet
carrying the id together with the remaining collection. -/
def extractById (l : List Snippet) (id : Nat) : Option (Snippet × List Snippet) :=
  match l with
  | [] => none
  | s :: rest =>
    if s.id = id then some (s, rest)
    else
      match extractById rest id with
      | some (t, rest2) => some (t, s :: rest2)
      | none => none

/-- Error text of `edit_snippet` for a missing id. -/
def edit_id_missing_msg (id : Nat) : String :=
  "Snippet ID '\x1b[1;33m" ++ Nat.repr id ++ "\x1b[0m' does not exist in the collection"

/-- `edit_snippet` resolved by id on a loaded collection: the selected snippet
is removed, its fields are updated from the prompt answers, and the updated
snippet is pushed at the end before the whole list is persisted. -/
def edit_snippet_by_id (l : List Snippet) (id : Nat) (inp : EditInputs) :
    Except String (List Snippet) :=
  match extractById l id with
  | some (s, rest) => Except.ok (rest ++ [applyEdits s inp])
  | none => Except.error (edit_id_missing_msg id)

/-- One round of the tag-disambiguation prompt (lines 800-825): the trimmed
input must parse as a `u32` and must be one of the listed candidate ids;
otherwise the round reports an error and selects nothing. -/
def choose_snippet_id (candidates : List Nat) (input : String) : Option Nat :=
  match parse_u32 (trimStr input) with
  | some chosen => if candidates.contains chosen then some chosen else none
  | none => none

/-- The snippets whose tag contains the query, case-insensitively
(main.rs 783-786). -/
def tagMatches (l : List Snippet) (tag : String) : List Snippet :=
  l.filter (fun s => contains_str (to_lowercase s.tag) (to_lowercase tag))

/-- Error text of `edit_snippet` when a tag matches no snippet. -/
def edit_tag_no_match_msg (tag : String) : String :=
  "Tag '\x1b[1;33m" ++ tag ++ "\x1b[0m' doesn\x27t match any snippets. Try a different tag."

/-- Error text standing for an invalid disambiguation answer: the source
prints one of two messages and re-prompts; the model ends the round here. -/
def edit_invalid_choice_msg : String :=
  "Invalid input. Please enter a valid numeric ID from the list."

/-- `edit_snippet` resolved by tag (main.rs 782-829, then 954-957).  No match
is an error.  With exactly one match the source takes
`matching_snippets[0].clone()` WITHOUT removing it from the collection, so
after the field updates the edited snippet is pushed next to the original
before the whole list is persisted.  With more than one match, one round of
the disambiguation prompt is run: a valid listed answer removes the chosen
snippet and proceeds exactly like an edit by that id; on an invalid answer
the source re-prompts, which the model renders as an error for the round. -/
def edit_snippet_by_tag (l : List Snippet) (tag : String) (inp : EditInputs)
    (choice : String) : Except String (List Snippet) :=
  match tagMatches l tag with
  | [] => Except.error (edit_tag_no_match_msg tag)
  | [s] => Except.ok (l ++ [applyEdits s inp])
  | _ :: _ :: _ =>
    match choose_snippet_id ((tagMatches l tag).map Snippet.id) choice with
    | some chosen => edit_snippet_by_id l chosen inp
    | none => Except.error edit_invalid_choice_msg

/-! ### `delete_snippet` (lines 1008-1074) -/

/-- Error text of `delete_snippet` naming every missing id, joined by
a comma and space. -/
def delete_ids_missing_msg (ids : List Nat) : String :=
  " snippet ID '\x1b[1;33m" ++ String.intercalate ", " (ids.map Nat.repr)
    ++ "\x1b[0m' does not exist in the collection"

/-- Remove the first snippet carrying the id, if any. -/
def removeFirstById : List Snippet → Nat → List Snippet
  | [], _ => []
  | s :: rest, i => if s.id = i then rest else s :: removeFirstById rest i

/-- Outcome of a deletion request: the persisted collection afterwards and the
operation result. -/
structure DeleteOutcome where
  store : List Snippet
  result : Except String Unit

/-- `delete_snippet` on a loaded collection: first every requested id is
validated and the operation fails, touching nothing, when any id is absent;
then the confirmation answer is checked (anything but `y` cancels, touching
nothing); finally each requested id has its first occurrence removed and the
result is persisted.  (The source skips the file write when the removal count
is zero, in which case the removal loop left the list unchanged anyway.) -/
def delete_snippet (store : List Snippet) (ids : List Nat) (confirm : String) :
    DeleteOutcome :=
  let missing := ids.filter (fun i => !(store.any (fun s => s.id == i)))
  if missing.isEmpty then
    if to_lowercase (trimStr confirm) = "y" then
      { store := ids.foldl removeFirstById store, result := Except.ok () }
    else
      { store := store, result := Except.ok () }
  else
    { store := store, result := Except.error (delete_ids_missing_msg missing) }

/-! ### BoxRenderer: `format_with_border`, `print_snippet`,
`print_snippet_summary` (lines 399-433 and 484-627)

The print functions are modelled as the list of terminal lines they emit,
from the top border through the bottom border.  The final `println!` of the
source carries one extra trailing newline, producing a blank spacer line after
the block; that spacer is the separation between blocks, not a line of the
block.  The syntax highlighter is an external collaborator and enters the
model as an opaque function argument. -/

/-- `format_with_border`: the content between two colored `║` border cells,
right-padded with spaces so the visible width reaches `width` (padding is
computed on the ANSI-stripped content, `saturating_sub` is `Nat`
subtraction). -/
def format_with_border (content : String) (width : Nat) : String :=
  "\x1b[34m║\x1b[0m" ++ content
    ++ String.mk (List.replicate (width - visibleWidth content) ' ')
    ++ "\x1b[34m║\x1b[0m"

/-- `s.repeat(n)` for strings. -/
def strRepeat (s : String) : Nat → String
  | 0 => ""
  | n + 1 => s ++ strRepeat s n

/-- A horizontal border line: a corner cell, `w` repetitions of the rule cell
and the closing corner cell, wrapped in the outer color escape of the
`println!` format string. -/
def boxRule (openS unitS closeS : String) (w : Nat) : String :=
  "\x1b[34m" ++ (openS ++ strRepeat unitS w ++ closeS) ++ "\x1b[0m"

/-- Top border of a block. -/
def topBorder (w : Nat) : String :=
  boxRule "\x1b[34m╔\x1b[0m" "\x1b[34m═\x1b[0m" "\x1b[34m╗\x1b[0m" w

/-- Separator between the label lines and the code body. -/
def midBorder (w : Nat) : String :=
  boxRule "\x1b[34m╟\x1b[0m" "\x1b[34m─\x1b[0m" "\x1b[34m╢\x1b[0m" w

/-- Bottom border of a block. -/
def bottomBorder (w : Nat) : String :=
  boxRule "\x1b[34m╚\x1b[0m" "\x1b[34m═\x1b[0m" "\x1b[34m╝\x1b[0m" w

/-- The id label line of `print_snippet` and `print_snippet_summary`. -/
def idLine (s : Snippet) : String :=
  "  \x1b[33;1mID:\x1b[0m \x1b[35;1m" ++ Nat.repr s.id ++ "\x1b[0m"

/-- The tag label line of `print_snippet`. -/
def tagLineFull (s : Snippet) : String :=
  "  \x1b[33;1mSnippet\x27s Tag:\x1b[0m \x1b[35;1m" ++ s.tag ++ "\x1b[0m"

/-- The tag label line of `print_snippet_summary`. -/
def tagLineSummary (s : Snippet) : String :=
  "  \x1b[33;1mTag:\x1b[0m \x1b[35;1m" ++ s.tag ++ "\x1b[0m"

/-- The timestamp label line. -/
def createdLine (s : Snippet) : String :=
  "  \x1b[33;1mCreated:\x1b[0m \x1b[35;1m" ++ s.timestamp ++ "\x1b[0m"

/-- The description label line; empty when there is no description. -/
def descriptionLine (s : Snippet) : String :=
  match s.description with
  | some desc => "  \x1b[33;1mDescription:\x1b[0m \x1b[35;1m" ++ desc ++ "\x1b[0m"
  | none => ""

/-- The header line of the code section. -/
def codeHeader : String := "\x1b[33;1m  Code:\x1b[0m"

/-- The `all_lines` vector of `print_snippet`: the four stripped label lines
followed by the stripped raw code lines, used only for the width maximum. -/
def allLinesFull (s : Snippet) : List String :=
  [strip_ansi_codes (idLine s), strip_ansi_codes (tagLineFull s),
   strip_ansi_codes (createdLine s), strip_ansi_codes (descriptionLine s)]
  ++ (rustLines s.code).map strip_ansi_codes

/-- The `all_lines` vector of `print_snippet_summary`. -/
def allLinesSummary (s : Snippet) : List String :=
  [strip_ansi_codes (idLine s), strip_ansi_codes (tagLineSummary s),
   strip_ansi_codes (createdLine s), strip_ansi_codes (descriptionLine s)]

/-- `.map(|line| line.chars().count()).max().unwrap_or(0)`. -/
def maxLineLength (ls : List String) : Nat := (ls.map String.length).foldr max 0

/-- `max_line_length + 4` for the full block. -/
def adjustedWidthFull (s : Snippet) : Nat := maxLineLength (allLinesFull s) + 4

/-- `max_line_length + 4` for the summary block. -/
def adjustedWidthSummary (s : Snippet) : Nat := maxLineLength (allLinesSummary s) + 4

/-- The highlighted code body: `highlight_code_snippets` (opaque collaborator
`hl`) when a language is recorded, the raw code otherwise. -/
def highlighted_code (hl : String → String → String) (code : String)
    (language : Option String) : String :=
  match language with
  | some lang => hl code lang
  | none => code

/-- `print_formatted_code`: the code header and every line of the highlighted
body, each indented by two spaces and bordered. -/
def print_formatted_code (hl : String → String → String) (code : String)
    (language : Option String) (w : Nat) : List String :=
  format_with_border codeHeader w
    :: (rustLines (highlighted_code hl code language)).map
        (fun line => format_with_border ("  " ++ line) w)

/-- The lines of a full `print_snippet` block. -/
def print_snippet (hl : String → String → String) (s : Snippet) : List String :=
  [topBorder (adjustedWidthFull s),
   format_with_border (idLine s) (adjustedWidthFull s),
   format_with_border (tagLineFull s) (adjustedWidthFull s),
   format_with_border (createdLine s) (adjustedWidthFull s)]
  ++ (if descriptionLine s = "" then []
      else [format_with_border (descriptionLine s) (adjustedWidthFull s)])
  ++ [midBorder (adjustedWidthFull s)]
  ++ print_formatted_code hl s.code s.language (adjustedWidthFull s)
  ++ [bottomBorder (adjustedWidthFull s)]

/-- The lines of a `print_snippet_summary` block. -/
def print_snippet_summary (s : Snippet) : List String :=
  [topBorder (adjustedWidthSummary s),
   format_with_border (idLine s) (adjustedWidthSummary s),
   format_with_border (tagLineSummary s) (adjustedWidthSummary s),
   format_with_border (createdLine s) (adjustedWidthSummary s)]
  ++ (if descriptionLine s = "" then []
      else [format_with_border (descriptionLine s) (adjustedWidthSummary s)])
  ++ [bottomBorder (adjustedWidthSummary s)]

/-! ### Invariants and example data -/

/-- The collection invariant: all snippet ids are pairwise distinct. -/
def IdsNodup (l : List Snippet) : Prop := (l.map Snippet.id).Nodup

/-- Heads of lists that can never continue a CSI match begun to their left:
not an opening bracket, not a parameter character, not a final letter. -/
def SafeHead : List Char → Prop
  | [] => True
  | c :: _ => ¬ c = '[' ∧ isCsiParam c = false ∧ isCsiFinal c = false

/-- Example snippet (id 1, tag `a`) used by concrete witnesses. -/
def exA : Snippet :=
  { tag := "a", description := none, code := "print(1)", timestamp := "t1",
    language := none, id := 1 }

/-- Example snippet (id 2, tag `ab`) used by concrete witnesses. -/
def exB : Snippet :=
  { tag := "ab", description := some "demo", code := "print(2)", timestamp := "t2",
    language := some "Python", id := 2 }

/-- Example snippet (id 3, tag `c`) used by concrete witnesses. -/
def exC : Snippet :=
  { tag := "c", description := none, code := "x", timestamp := "t3",
    language := none, id := 3 }

/-- Example edit-session answers: blank tag, description and language prompts,
replacement code `y`. -/
def exInputs : EditInputs :=
  { newTag := "\n", newDescription := "\n", newLanguage := "\n", newCode := "y" }

/-- The snippet `exA` after an edit with the answers `exInputs`: same id, same
tag, cleared description and language, replaced code. -/
def exAEdited : Snippet :=
  { tag := "a", description := none, code := "y", timestamp := "t1",
    language := none, id := 1 }

/-! ## Theorems

### Properties of the ANSI stripper -/

theorem dropWhile_length_bound (p : Char → Bool) (l : List Char) :
    (l.dropWhile p).length ≤ l.length := by
  induction l with
  | nil => exact Nat.le_refl 0
  | cons a t ih =>
    by_cases h : p a = true
    · rw [List.dropWhile_cons_of_pos h]
      exact Nat.le_trans ih (Nat.le_succ _)
    · rw [List.dropWhile_cons_of_neg h]

theorem csiTail_length {cs r : List Char} (h : csiTail cs = some r) : r.length < cs.length := by
  unfold csiTail at h
  split at h
  case h_2 => exact absurd h (by simp)
  case h_1 c rest =>
    split at h
    case isFalse => exact absurd h (by simp)
    case isTrue hc =>
      split at h
      case h_2 => exact absurd h (by simp)
      case h_1 d rest2 hd =>
        split at h
        case isFalse => exact absurd h (by simp)
        case isTrue hf =>
          injection h with h
          subst h
          have h1 := dropWhile_length_bound isCsiParam rest
          rw [hd] at h1
          simp only [List.length_cons] at h1 ⊢
          omega

theorem stripAnsiGo_congr : ∀ (n : Nat) {m : Nat} (l : List Char),
    l.length ≤ n → l.length ≤ m → stripAnsiGo n l = stripAnsiGo m l := by
  intro n
  induction n with
  | zero =>
    intro m l hn _
    have : l = [] := List.length_eq_zero.mp (Nat.le_zero.mp hn)
    subst this
    cases m <;> rfl
  | succ n ih =>
    intro m l hn hm
    match l with
    | [] => cases m <;> rfl
    | c :: cs =>
      match m with
      | 0 => exact absurd hm (by simp)
      | Nat.succ m =>
        show stripAnsiGo (n + 1) (c :: cs) = stripAnsiGo (m + 1) (c :: cs)
        simp only [stripAnsiGo]
        by_cases hc : c = '\x1b'
        · rw [if_pos hc, if_pos hc]
          match hcsi : csiTail cs with
          | some rest =>
            have hlt := csiTail_length hcsi
            have hcl : cs.length + 1 ≤ n + 1 := by simpa using hn
            have hcm : cs.length + 1 ≤ m + 1 := by simpa using hm
            exact ih rest (by omega) (by omega)
          | none =>
            have hcl : cs.length ≤ n := by simp at hn; omega
            have hcm : cs.length ≤ m := by simp at hm; omega
            rw [ih cs hcl hcm]
        · rw [if_neg hc, if_neg hc]
          have hcl : cs.length ≤ n := by simp at hn; omega
          have hcm : cs.length ≤ m := by simp at hm; omega
          rw [ih cs hcl hcm]

theorem stripAnsiList_cons_plain {c : Char} (h : ¬ c = '\x1b') (cs : List Char) :
    stripAnsiList (c :: cs) = c :: stripAnsiList cs := by
  show stripAnsiGo (cs.length + 1) (c :: cs) = c :: stripAnsiGo cs.length cs
  simp only [stripAnsiGo, if_neg h]

theorem stripAnsiList_esc_match {cs rest : List Char} (h : csiTail cs = some rest) :
    stripAnsiList ('\x1b' :: cs) = stripAnsiList rest := by
  show stripAnsiGo (cs.length + 1) ('\x1b' :: cs) = stripAnsiGo rest.length rest
  simp only [stripAnsiGo, reduceIte, h]
  exact stripAnsiGo_congr cs.length rest (Nat.le_of_lt (csiTail_length h)) (Nat.le_refl _)

theorem stripAnsiList_esc_nomatch {cs : List Char} (h : csiTail cs = none) :
    stripAnsiList ('\x1b' :: cs) = '\x1b' :: stripAnsiList cs := by
  show stripAnsiGo (cs.length + 1) ('\x1b' :: cs) = '\x1b' :: stripAnsiGo cs.length cs
  simp only [stripAnsiGo, reduceIte, h]

theorem dropWhile_params_append {ps : List Char} (xs : List Char)
    (h : ∀ c ∈ ps, isCsiParam c = true) :
    (ps ++ xs).dropWhile isCsiParam = xs.dropWhile isCsiParam := by
  induction ps with
  | nil => rfl
  | cons a t ih =>
    have ha : isCsiParam a = true := h a (List.mem_cons_self a t)
    simp only [List.cons_append, List.dropWhile_cons_of_pos ha]
    exact ih (fun c hc => h c (List.mem_cons_of_mem a hc))

theorem strip_csi (ps : List Char) (d : Char) (l : List Char)
    (hps : ∀ c ∈ ps, isCsiParam c = true) (hd : isCsiFinal d = true)
    (hdp : isCsiParam d = false) :
    stripAnsiList ('\x1b' :: '[' :: (ps ++ d :: l)) = stripAnsiList l := by
  have hcsi : csiTail ('[' :: (ps ++ d :: l)) = some l := by
    simp only [csiTail, reduceIte]
    rw [dropWhile_params_append (d :: l) hps,
      List.dropWhile_cons_of_neg (by simp [hdp])]
    simp [hd]
  exact stripAnsiList_esc_match hcsi

theorem strip_plain_append {p : List Char} (r : List Char) (h : ∀ c ∈ p, ¬ c = '\x1b') :
    stripAnsiList (p ++ r) = p ++ stripAnsiList r := by
  induction p with
  | nil => rfl
  | cons a t ih =>
    have ha := h a (List.mem_cons_self a t)
    simp only [List.cons_append, stripAnsiList_cons_plain ha,
      ih (fun c hc => h c (List.mem_cons_of_mem a hc))]

theorem strip_colored_char (c : Char) (hc : ¬ c = '\x1b') (r : List Char) :
    stripAnsiList ('\x1b' :: '[' :: '3' :: '4' :: 'm' :: c :: '\x1b' :: '[' :: '0' :: 'm' :: r)
      = c :: stripAnsiList r := by
  have h1 : stripAnsiList
        ('\x1b' :: '[' :: '3' :: '4' :: 'm' :: c :: '\x1b' :: '[' :: '0' :: 'm' :: r)
      = stripAnsiList (c :: '\x1b' :: '[' :: '0' :: 'm' :: r) :=
    strip_csi ['3', '4'] 'm' _ (by decide) (by decide) (by decide)
  rw [h1, stripAnsiList_cons_plain hc]
  have h2 : stripAnsiList ('\x1b' :: '[' :: '0' :: 'm' :: r) = stripAnsiList r :=
    strip_csi ['0'] 'm' _ (by decide) (by decide) (by decide)
  rw [h2]

theorem dropWhile_append_of_ne_nil {p : Char → Bool} {l : List Char} {d : Char} {t : List Char}
    (r : List Char) (h : l.dropWhile p = d :: t) :
    (l ++ r).dropWhile p = d :: (t ++ r) := by
  induction l with
  | nil => simp at h
  | cons a l2 ih =>
    by_cases ha : p a = true
    · rw [List.dropWhile_cons_of_pos ha] at h
      simpa [List.cons_append, List.dropWhile_cons_of_pos ha] using ih h
    · rw [List.dropWhile_cons_of_neg ha] at h
      injection h with h1 h2
      subst h1; subst h2
      simp [List.cons_append, List.dropWhile_cons_of_neg ha]

theorem dropWhile_append_of_all {p : Char → Bool} {l : List Char} (r : List Char)
    (h : l.dropWhile p = []) :
    (l ++ r).dropWhile p = r.dropWhile p := by
  induction l with
  | nil => rfl
  | cons a l2 ih =>
    by_cases ha : p a = true
    · rw [List.dropWhile_cons_of_pos ha] at h
      simpa [List.cons_append, List.dropWhile_cons_of_pos ha] using ih h
    · rw [List.dropWhile_cons_of_neg ha] at h
      simp at h

theorem csiTail_append_some {cs r : List Char} (ys : List Char) (h : csiTail cs = some r) :
    csiTail (cs ++ ys) = some (r ++ ys) := by
  cases cs with
  | nil => simp [csiTail] at h
  | cons c rest =>
    simp only [csiTail] at h
    rw [List.cons_append]
    simp only [csiTail]
    split at h
    case isFalse hc => exact absurd h (by simp)
    case isTrue hc =>
      rw [if_pos hc]
      split at h
      case h_2 => exact absurd h (by simp)
      case h_1 d rest2 hd =>
        split at h
        case isFalse => exact absurd h (by simp)
        case isTrue hf =>
          injection h with h
          subst h
          rw [dropWhile_append_of_ne_nil ys hd]
          simp [hf]

theorem csiTail_append_none {cs : List Char} (ys : List Char) (h : csiTail cs = none)
    (hs : SafeHead ys) :
    csiTail (cs ++ ys) = none := by
  cases cs with
  | nil =>
    rw [List.nil_append]
    cases ys with
    | nil => rfl
    | cons y t =>
      simp only [csiTail]
      rw [if_neg hs.1]
  | cons c rest =>
    simp only [csiTail] at h
    rw [List.cons_append]
    simp only [csiTail]
    split at h
    case isFalse hc => rw [if_neg hc]
    case isTrue hc =>
      rw [if_pos hc]
      split at h
      case h_1 d rest2 hd =>
        split at h
        case isTrue hf => exact absurd h (by simp)
        case isFalse hf =>
          rw [dropWhile_append_of_ne_nil ys hd]
          simp [hf]
      case h_2 hd =>
        rw [dropWhile_append_of_all ys hd]
        cases ys with
        | nil => rfl
        | cons y t =>
          rw [List.dropWhile_cons_of_neg (by simp [hs.2.1])]
          simp [hs.2.2]

theorem strip_safe_append_fuel : ∀ (n : Nat) (xs ys : List Char), xs.length ≤ n → SafeHead ys →
    stripAnsiList (xs ++ ys) = stripAnsiList xs ++ stripAnsiList ys := by
  intro n
  induction n with
  | zero =>
    intro xs ys hn _
    have : xs = [] := List.length_eq_zero.mp (Nat.le_zero.mp hn)
    subst this
    rfl
  | succ n ih =>
    intro xs ys hn hs
    match xs with
    | [] => rfl
    | c :: cs =>
      rw [List.cons_append]
      by_cases hc : c = '\x1b'
      · subst hc
        match hcsi : csiTail cs with
        | some rest =>
          rw [stripAnsiList_esc_match hcsi,
            stripAnsiList_esc_match (csiTail_append_some ys hcsi)]
          have hlt := csiTail_length hcsi
          have hlen : cs.length + 1 ≤ n + 1 := by simpa using hn
          exact ih rest ys (by omega) hs
        | none =>
          rw [stripAnsiList_esc_nomatch hcsi,
            stripAnsiList_esc_nomatch (csiTail_append_none ys hcsi hs)]
          have hlen : cs.length + 1 ≤ n + 1 := by simpa using hn
          rw [ih cs ys (by omega) hs]
          rfl
      · rw [stripAnsiList_cons_plain hc, stripAnsiList_cons_plain hc]
        have hlen : cs.length + 1 ≤ n + 1 := by simpa using hn
        rw [ih cs ys (by omega) hs]
        rfl

theorem strip_safe_append (xs ys : List Char) (hs : SafeHead ys) :
    stripAnsiList (xs ++ ys) = stripAnsiList xs ++ stripAnsiList ys :=
  strip_safe_append_fuel xs.length xs ys (Nat.le_refl _) hs

/-! ### Width of rendered lines -/

theorem visibleWidth_eq (s : String) : visibleWidth s = (stripAnsiList s.data).length := rfl

theorem strip_unit_append (u : String) (c : Char) (r : List Char)
    (hu : u.data = ['\x1b', '[', '3', '4', 'm', c, '\x1b', '[', '0', 'm'])
    (hc : ¬ c = '\x1b') :
    stripAnsiList (u.data ++ r) = c :: stripAnsiList r := by
  rw [hu]
  exact strip_colored_char c hc r

theorem safeHead_pad_close (n : Nat) :
    SafeHead (List.replicate n ' ' ++ ("\x1b[34m║\x1b[0m").data) := by
  cases n with
  | zero => exact ⟨by decide, by decide, by decide⟩
  | succ n => exact ⟨by decide, by decide, by decide⟩

theorem strip_replicate_space (n : Nat) (r : List Char) :
    stripAnsiList (List.replicate n ' ' ++ r) = List.replicate n ' ' ++ stripAnsiList r :=
  strip_plain_append r (by
    intro c hcmem
    have hce := List.eq_of_mem_replicate hcmem
    subst hce
    decide)

theorem visibleWidth_format_with_border (content : String) (width : Nat)
    (h : visibleWidth content ≤ width) :
    visibleWidth (format_with_border content width) = width + 2 := by
  have hdata : (format_with_border content width).data
      = ("\x1b[34m║\x1b[0m").data
        ++ (content.data
          ++ (List.replicate (width - visibleWidth content) ' '
            ++ ("\x1b[34m║\x1b[0m").data)) := by
    simp [format_with_border, String.data_append, List.append_assoc]
  rw [visibleWidth_eq, hdata,
    strip_unit_append ("\x1b[34m║\x1b[0m") '║' _ rfl (by decide),
    strip_safe_append content.data _ (safeHead_pad_close _),
    strip_replicate_space]
  have hclose : stripAnsiList (("\x1b[34m║\x1b[0m").data) = ['║'] := by decide
  rw [hclose]
  have hv : (stripAnsiList content.data).length = visibleWidth content := rfl
  simp only [List.length_cons, List.length_append, List.length_replicate, List.length_nil]
  omega

theorem strip_strRepeat_unit (u : String) (c : Char)
    (hu : u.data = ['\x1b', '[', '3', '4', 'm', c, '\x1b', '[', '0', 'm'])
    (hc : ¬ c = '\x1b') :
    ∀ (n : Nat) (r : List Char),
      stripAnsiList ((strRepeat u n).data ++ r) = List.replicate n c ++ stripAnsiList r := by
  intro n
  induction n with
  | zero => intro r; rfl
  | succ n ih =>
    intro r
    have hdata : (strRepeat u (n + 1)).data ++ r = u.data ++ ((strRepeat u n).data ++ r) := by
      show (u ++ strRepeat u n).data ++ r = _
      rw [String.data_append, List.append_assoc]
    rw [hdata, strip_unit_append u c _ hu hc, ih]
    rfl

theorem visibleWidth_boxRule (o u c : String) (co cu cc : Char) (w : Nat)
    (ho : o.data = ['\x1b', '[', '3', '4', 'm', co, '\x1b', '[', '0', 'm'])
    (hco : ¬ co = '\x1b')
    (hu : u.data = ['\x1b', '[', '3', '4', 'm', cu, '\x1b', '[', '0', 'm'])
    (hcu : ¬ cu = '\x1b')
    (hc : c.data = ['\x1b', '[', '3', '4', 'm', cc, '\x1b', '[', '0', 'm'])
    (hcc : ¬ cc = '\x1b') :
    visibleWidth (boxRule o u c w) = w + 2 := by
  have hdata : (boxRule o u c w).data
      = ("\x1b[34m").data
        ++ (o.data ++ ((strRepeat u w).data ++ (c.data ++ ("\x1b[0m").data))) := by
    simp [boxRule, String.data_append, List.append_assoc]
  have h34 : ∀ x : List Char,
      stripAnsiList (("\x1b[34m").data ++ x) = stripAnsiList x := fun x =>
    strip_csi ['3', '4'] 'm' x (by decide) (by decide) (by decide)
  rw [visibleWidth_eq, hdata, h34, strip_unit_append o co _ ho hco,
    strip_strRepeat_unit u cu hu hcu w, strip_unit_append c cc _ hc hcc]
  have h0 : stripAnsiList (("\x1b[0m").data) = [] := by decide
  rw [h0]
  simp only [List.length_cons, List.length_append, List.length_replicate, List.length_nil]

theorem strip_csi331 (l : List Char) :
    stripAnsiList ('\x1b' :: '[' :: '3' :: '3' :: ';' :: '1' :: 'm' :: l) = stripAnsiList l :=
  strip_csi ['3', '3', ';', '1'] 'm' l (by decide) (by decide) (by decide)

theorem strip_csi351 (l : List Char) :
    stripAnsiList ('\x1b' :: '[' :: '3' :: '5' :: ';' :: '1' :: 'm' :: l) = stripAnsiList l :=
  strip_csi ['3', '5', ';', '1'] 'm' l (by decide) (by decide) (by decide)

theorem strip_csi0 (l : List Char) :
    stripAnsiList ('\x1b' :: '[' :: '0' :: 'm' :: l) = stripAnsiList l :=
  strip_csi ['0'] 'm' l (by decide) (by decide) (by decide)

theorem strip_id_label (r : List Char) :
    stripAnsiList (("  \x1b[33;1mID:\x1b[0m \x1b[35;1m").data ++ r)
      = ' ' :: ' ' :: 'I' :: 'D' :: ':' :: ' ' :: stripAnsiList r := by
  show stripAnsiList
      (' ' :: ' ' :: '\x1b' :: '[' :: '3' :: '3' :: ';' :: '1' :: 'm' :: 'I' :: 'D' :: ':'
        :: '\x1b' :: '[' :: '0' :: 'm' :: ' ' :: '\x1b' :: '[' :: '3' :: '5' :: ';' :: '1'
        :: 'm' :: r)
      = ' ' :: ' ' :: 'I' :: 'D' :: ':' :: ' ' :: stripAnsiList r
  rw [@stripAnsiList_cons_plain ' ' (by decide), @stripAnsiList_cons_plain ' ' (by decide),
    strip_csi331, @stripAnsiList_cons_plain 'I' (by decide),
    @stripAnsiList_cons_plain 'D' (by decide), @stripAnsiList_cons_plain ':' (by decide),
    strip_csi0, @stripAnsiList_cons_plain ' ' (by decide), strip_csi351]

theorem visibleWidth_two_space (t : String) : visibleWidth ("  " ++ t) = 2 + visibleWidth t := by
  show (stripAnsiList (' ' :: ' ' :: t.data)).length = 2 + (stripAnsiList t.data).length
  rw [@stripAnsiList_cons_plain ' ' (by decide), @stripAnsiList_cons_plain ' ' (by decide)]
  simp only [List.length_cons]
  omega

theorem idLine_visibleWidth_ge (s : Snippet) : 6 ≤ visibleWidth (idLine s) := by
  have hdata : (idLine s).data
      = ("  \x1b[33;1mID:\x1b[0m \x1b[35;1m").data
        ++ ((Nat.repr s.id).data ++ ("\x1b[0m").data) := by
    simp [idLine, String.data_append, List.append_assoc]
  rw [visibleWidth_eq, hdata, strip_id_label]
  simp only [List.length_cons]
  omega

theorem le_maxLineLength {x : String} : ∀ {ls : List String}, x ∈ ls →
    x.length ≤ maxLineLength ls := by
  intro ls
  induction ls with
  | nil => intro h; cases h
  | cons a t ih =>
    intro h
    rcases List.mem_cons.mp h with h1 | h1
    · subst h1
      show x.length ≤ max x.length (maxLineLength t)
      exact le_max_left _ _
    · show x.length ≤ max a.length (maxLineLength t)
      exact le_trans (ih h1) (le_max_right _ _)

/-- C9: every line of one rendered block has the same visible column width —
the block width plus the two border cells — in full mode (borders, label
lines, the code header and every code line, with or without highlighting) and
in summary mode, computed via `visibleWidth` so that embedded ANSI escape
sequences never change a line\x27s visible width.  The external syntax
highlighter enters as an opaque function assumed to preserve the per-line
visible widths of the code body (it only injects color escapes). -/
theorem print_block_constant_visible_width (hl : String → String → String) (s : Snippet)
    (hhl : (rustLines (highlighted_code hl s.code s.language)).map visibleWidth
        = (rustLines s.code).map visibleWidth) :
    (∀ line ∈ print_snippet hl s, visibleWidth line = adjustedWidthFull s + 2) ∧
    (∀ line ∈ print_snippet_summary s, visibleWidth line = adjustedWidthSummary s + 2) := by
  constructor
  · intro line hline
    have hid : visibleWidth (idLine s) ≤ maxLineLength (allLinesFull s) :=
      le_maxLineLength (by simp [allLinesFull])
    have htag : visibleWidth (tagLineFull s) ≤ maxLineLength (allLinesFull s) :=
      le_maxLineLength (by simp [allLinesFull])
    have hcreated : visibleWidth (createdLine s) ≤ maxLineLength (allLinesFull s) :=
      le_maxLineLength (by simp [allLinesFull])
    have hdescb : visibleWidth (descriptionLine s) ≤ maxLineLength (allLinesFull s) :=
      le_maxLineLength (by simp [allLinesFull])
    have hW : adjustedWidthFull s = maxLineLength (allLinesFull s) + 4 := rfl
    have hcodeline : ∀ cl ∈ rustLines (highlighted_code hl s.code s.language),
        visibleWidth ("  " ++ cl) ≤ adjustedWidthFull s := by
      intro cl hcl
      have h1 : visibleWidth cl
          ∈ (rustLines (highlighted_code hl s.code s.language)).map visibleWidth :=
        List.mem_map_of_mem _ hcl
      rw [hhl] at h1
      rcases List.mem_map.mp h1 with ⟨raw, hraw, heq⟩
      have h2 : strip_ansi_codes raw ∈ allLinesFull s := by
        simp only [allLinesFull, List.mem_append]
        right
        exact List.mem_map_of_mem _ hraw
      have h3 : visibleWidth raw ≤ maxLineLength (allLinesFull s) := le_maxLineLength h2
      have h4 := visibleWidth_two_space cl
      show visibleWidth ("  " ++ cl) ≤ maxLineLength (allLinesFull s) + 4
      omega
    have hheader : visibleWidth codeHeader ≤ adjustedWidthFull s := by
      have h6 := idLine_visibleWidth_ge s
      have h7 : visibleWidth codeHeader = 7 := by decide
      show visibleWidth codeHeader ≤ maxLineLength (allLinesFull s) + 4
      omega
    simp only [print_snippet, print_formatted_code] at hline
    by_cases hdesc : descriptionLine s = ""
    · rw [if_pos hdesc] at hline
      simp only [List.append_nil, List.nil_append, List.cons_append, List.mem_append,
        List.mem_cons, List.mem_singleton, List.mem_map, List.not_mem_nil, or_false,
        false_or] at hline
      rcases hline with h | h | h | h | h | h | ⟨cl, hcl, rfl⟩ | h
      · rw [h]
        exact visibleWidth_boxRule _ _ _ '╔' '═' '╗' _ rfl (by decide) rfl (by decide) rfl
          (by decide)
      · rw [h]
        exact visibleWidth_format_with_border _ _ (by omega)
      · rw [h]
        exact visibleWidth_format_with_border _ _ (by omega)
      · rw [h]
        exact visibleWidth_format_with_border _ _ (by omega)
      · rw [h]
        exact visibleWidth_boxRule _ _ _ '╟' '─' '╢' _ rfl (by decide) rfl (by decide) rfl
          (by decide)
      · rw [h]
        exact visibleWidth_format_with_border _ _ hheader
      · exact visibleWidth_format_with_border _ _ (hcodeline cl hcl)
      · rw [h]
        exact visibleWidth_boxRule _ _ _ '╚' '═' '╝' _ rfl (by decide) rfl (by decide) rfl
          (by decide)
    · rw [if_neg hdesc] at hline
      simp only [List.append_nil, List.nil_append, List.cons_append, List.mem_append,
        List.mem_cons, List.mem_singleton, List.mem_map, List.not_mem_nil, or_false,
        false_or] at hline
      rcases hline with h | h | h | h | h | h | h | ⟨cl, hcl, rfl⟩ | h
      · rw [h]
        exact visibleWidth_boxRule _ _ _ '╔' '═' '╗' _ rfl (by decide) rfl (by decide) rfl
          (by decide)
      · rw [h]
        exact visibleWidth_format_with_border _ _ (by omega)
      · rw [h]
        exact visibleWidth_format_with_border _ _ (by omega)
      · rw [h]
        exact visibleWidth_format_with_border _ _ (by omega)
      · rw [h]
        exact visibleWidth_format_with_border _ _ (by omega)
      · rw [h]
        exact visibleWidth_boxRule _ _ _ '╟' '─' '╢' _ rfl (by decide) rfl (by decide) rfl
          (by decide)
      · rw [h]
        exact visibleWidth_format_with_border _ _ hheader
      · exact visibleWidth_format_with_border _ _ (hcodeline cl hcl)
      · rw [h]
        exact visibleWidth_boxRule _ _ _ '╚' '═' '╝' _ rfl (by decide) rfl (by decide) rfl
          (by decide)
  · intro line hline
    have hid : visibleWidth (idLine s) ≤ maxLineLength (allLinesSummary s) :=
      le_maxLineLength (by simp [allLinesSummary])
    have htag : visibleWidth (tagLineSummary s) ≤ maxLineLength (allLinesSummary s) :=
      le_maxLineLength (by simp [allLinesSummary])
    have hcreated : visibleWidth (createdLine s) ≤ maxLineLength (allLinesSummary s) :=
      le_maxLineLength (by simp [allLinesSummary])
    have hdescb : visibleWidth (descriptionLine s) ≤ maxLineLength (allLinesSummary s) :=
      le_maxLineLength (by simp [allLinesSummary])
    have hW : adjustedWidthSummary s = maxLineLength (allLinesSummary s) + 4 := rfl
    simp only [print_snippet_summary] at hline
    by_cases hdesc : descriptionLine s = ""
    · rw [if_pos hdesc] at hline
      simp only [List.append_nil, List.nil_append, List.cons_append, List.mem_append,
        List.mem_cons, List.mem_singleton, List.not_mem_nil, or_false, false_or] at hline
      rcases hline with h | h | h | h | h
      · rw [h]
        exact visibleWidth_boxRule _ _ _ '╔' '═' '╗' _ rfl (by decide) rfl (by decide) rfl
          (by decide)
      · rw [h]
        exact visibleWidth_format_with_border _ _ (by omega)
      · rw [h]
        exact visibleWidth_format_with_border _ _ (by omega)
      · rw [h]
        exact visibleWidth_format_with_border _ _ (by omega)
      · rw [h]
        exact visibleWidth_boxRule _ _ _ '╚' '═' '╝' _ rfl (by decide) rfl (by decide) rfl
          (by decide)
    · rw [if_neg hdesc] at hline
      simp only [List.append_nil, List.nil_append, List.cons_append, List.mem_append,
        List.mem_cons, List.mem_singleton, List.not_mem_nil, or_false, false_or] at hline
      rcases hline with h | h | h | h | h | h
      · rw [h]
        exact visibleWidth_boxRule _ _ _ '╔' '═' '╗' _ rfl (by decide) rfl (by decide) rfl
          (by decide)
      · rw [h]
        exact visibleWidth_format_with_border _ _ (by omega)
      · rw [h]
        exact visibleWidth_format_with_border _ _ (by omega)
      · rw [h]
        exact visibleWidth_format_with_border _ _ (by omega)
      · rw [h]
        exact visibleWidth_format_with_border _ _ (by omega)
      · rw [h]
        exact visibleWidth_boxRule _ _ _ '╚' '═' '╝' _ rfl (by decide) rfl (by decide) rfl
          (by decide)


/-- Concrete instantiation of the C9 theorem: the identity highlighter on the
example snippet, whose language is absent, satisfies the hypothesis by
definitional equality. -/
theorem print_block_constant_visible_width_witness :
    (∀ line ∈ print_snippet (fun c _ => c) exA,
      visibleWidth line = adjustedWidthFull exA + 2) ∧
    (∀ line ∈ print_snippet_summary exA,
      visibleWidth line = adjustedWidthSummary exA + 2) :=
  print_block_constant_visible_width (fun c _ => c) exA rfl

/-! ### List helper lemmas for the store operations -/

theorem le_maxId {s : Snippet} : ∀ {l : List Snippet}, s ∈ l → s.id ≤ maxId l := by
  intro l
  induction l with
  | nil => intro h; cases h
  | cons a t ih =>
    intro h
    rcases List.mem_cons.mp h with h1 | h1
    · subst h1
      show s.id ≤ max s.id (maxId t)
      exact le_max_left _ _
    · show s.id ≤ max a.id (maxId t)
      exact le_trans (ih h1) (le_max_right _ _)

theorem maxId_lt_bound {l : List Snippet} (h : ∀ s ∈ l, s.id + 1 < 2 ^ 32) :
    maxId l + 1 < 2 ^ 32 := by
  induction l with
  | nil =>
    show (0 : Nat) + 1 < 2 ^ 32
    norm_num
  | cons a t ih =>
    have ha := h a (List.mem_cons_self a t)
    have ht := ih (fun s hs => h s (List.mem_cons_of_mem a hs))
    show max a.id (maxId t) + 1 < 2 ^ 32
    omega

theorem extractById_id : ∀ {l : List Snippet} {i : Nat} {s : Snippet} {rest : List Snippet},
    extractById l i = some (s, rest) → s.id = i := by
  intro l
  induction l with
  | nil => intro i s rest h; simp [extractById] at h
  | cons a t ih =>
    intro i s rest h
    simp only [extractById] at h
    split at h
    case isTrue ha =>
      simp only [Option.some.injEq, Prod.mk.injEq] at h
      obtain ⟨rfl, rfl⟩ := h
      exact ha
    case isFalse ha =>
      split at h
      case h_1 t2 rest2 heq =>
        simp only [Option.some.injEq, Prod.mk.injEq] at h
        obtain ⟨rfl, rfl⟩ := h
        exact ih heq
      case h_2 => exact absurd h (by simp)

theorem extractById_perm : ∀ {l : List Snippet} {i : Nat} {s : Snippet} {rest : List Snippet},
    extractById l i = some (s, rest) → l.Perm (s :: rest) := by
  intro l
  induction l with
  | nil => intro i s rest h; simp [extractById] at h
  | cons a t ih =>
    intro i s rest h
    simp only [extractById] at h
    split at h
    case isTrue ha =>
      simp only [Option.some.injEq, Prod.mk.injEq] at h
      obtain ⟨rfl, rfl⟩ := h
      exact List.Perm.refl _
    case isFalse ha =>
      split at h
      case h_1 t2 rest2 heq =>
        simp only [Option.some.injEq, Prod.mk.injEq] at h
        obtain ⟨rfl, rfl⟩ := h
        exact (List.Perm.cons a (ih heq)).trans (List.Perm.swap _ _ _)
      case h_2 => exact absurd h (by simp)

theorem removeFirstById_sublist (i : Nat) : ∀ l : List Snippet,
    (removeFirstById l i).Sublist l := by
  intro l
  induction l with
  | nil => exact List.Sublist.refl _
  | cons a t ih =>
    simp only [removeFirstById]
    split
    · exact List.sublist_cons_self a t
    · exact List.Sublist.cons₂ a ih

theorem foldl_removeFirst_sublist : ∀ (ids : List Nat) (l : List Snippet),
    (ids.foldl removeFirstById l).Sublist l := by
  intro ids
  induction ids with
  | nil => intro l; exact List.Sublist.refl l
  | cons i is ih =>
    intro l
    show (is.foldl removeFirstById (removeFirstById l i)).Sublist l
    exact (ih (removeFirstById l i)).trans (removeFirstById_sublist i l)

theorem delete_snippet_store_cases (col : List Snippet) (ids : List Nat) (confirm : String) :
    (delete_snippet col ids confirm).store = col ∨
    (delete_snippet col ids confirm).store = ids.foldl removeFirstById col := by
  simp only [delete_snippet]
  split
  · split
    · right; rfl
    · left; rfl
  · left; rfl

/-! ### C1: edit replaces the snippet but keeps its id -/

/-- C1 counterexample: editing the snippet with id 1 out of the singleton
collection persists a snippet whose id is still 1 — the edit operation does
not allocate a new id. -/
theorem edit_new_id_counterexample :
    edit_snippet_by_id [exA] 1 exInputs = Except.ok [exAEdited] ∧ exAEdited.id = 1 :=
  ⟨rfl, rfl⟩

/-- C1 (amended): an edit removes the selected snippet and appends the updated
snippet value at the end of the collection, and the appended snippet keeps the
selected snippet\x27s original id (which equals the requested id). -/
theorem edit_replaces_preserving_id (l : List Snippet) (i : Nat) (inp : EditInputs)
    (s : Snippet) (rest : List Snippet) (h : extractById l i = some (s, rest)) :
    edit_snippet_by_id l i inp = Except.ok (rest ++ [applyEdits s inp]) ∧
    (applyEdits s inp).id = s.id ∧ s.id = i := by
  refine ⟨?_, rfl, extractById_id h⟩
  simp [edit_snippet_by_id, h]

/-- Witness for the amended C1 theorem at a concrete two-snippet collection. -/
theorem edit_replaces_preserving_id_witness :
    edit_snippet_by_id [exA, exC] 1 exInputs
      = Except.ok ([exC] ++ [applyEdits exA exInputs]) ∧
    (applyEdits exA exInputs).id = exA.id ∧ exA.id = 1 :=
  edit_replaces_preserving_id [exA, exC] 1 exInputs exA [exC] rfl

/-! ### C2: bulk deletion is all-or-nothing -/

theorem delete_pred_iff (store : List Snippet) (i : Nat) :
    (!(store.any (fun s => s.id == i))) = true ↔ ∀ s ∈ store, ¬ s.id = i := by
  simp [List.any_eq_true]

/-- C2: when any requested id is absent from the collection, `delete_snippet`
fails with a NotFound error naming exactly the missing ids (all of them,
together), and the persisted store is unchanged — nothing at all is deleted,
existing requested ids included. -/
theorem delete_missing_ids_all_or_nothing (store : List Snippet) (ids : List Nat)
    (confirm : String) (h : ∃ i ∈ ids, ∀ s ∈ store, ¬ s.id = i) :
    (delete_snippet store ids confirm).store = store ∧
    ∃ missing : List Nat,
      (delete_snippet store ids confirm).result
        = Except.error (delete_ids_missing_msg missing) ∧
      ∀ i : Nat, i ∈ missing ↔ (i ∈ ids ∧ ∀ s ∈ store, ¬ s.id = i) := by
  obtain ⟨i0, hi0, habs⟩ := h
  have hmem : i0 ∈ ids.filter (fun i => !(store.any (fun s => s.id == i))) :=
    List.mem_filter.mpr ⟨hi0, (delete_pred_iff store i0).mpr habs⟩
  have hne : (ids.filter (fun i => !(store.any (fun s => s.id == i)))).isEmpty = false := by
    cases hcase : (ids.filter (fun i => !(store.any (fun s => s.id == i)))).isEmpty
    · rfl
    · rw [List.isEmpty_iff] at hcase
      rw [hcase] at hmem
      cases hmem
  refine ⟨?_, ids.filter (fun i => !(store.any (fun s => s.id == i))), ?_, ?_⟩
  · simp [delete_snippet, hne]
  · simp [delete_snippet, hne]
  · intro i
    rw [List.mem_filter, delete_pred_iff store i]

/-- Witness for C2: requesting ids 3 and 99 against the collection that only
holds id 3 fails and deletes nothing. -/
theorem delete_missing_ids_all_or_nothing_witness :
    (delete_snippet [exC] [3, 99] "y").store = [exC] ∧
    ∃ missing : List Nat,
      (delete_snippet [exC] [3, 99] "y").result
        = Except.error (delete_ids_missing_msg missing) ∧
      ∀ i : Nat, i ∈ missing ↔ (i ∈ [3, 99] ∧ ∀ s ∈ [exC], ¬ s.id = i) :=
  delete_missing_ids_all_or_nothing [exC] [3, 99] "y" ⟨99, by decide, by decide⟩

/-! ### C3: dimension filter semantics -/

/-- C3: a snippet is kept by the dimension filter iff it passes every supplied
dimension (AND across dimensions); each supplied dimension is OR across its
comma-separated terms with case-insensitive substring containment against the
relevant field; an absent snippet language never matches a language filter; an
unsupplied dimension passes vacuously; and the result preserves the original
collection order (it is a sublist). -/
theorem filter_dimension_semantics :
    (∀ (l : List Snippet) (tq lq kq : Option String) (s : Snippet),
      (s ∈ filterSnippets l tq lq kq ↔
        s ∈ l ∧ tag_match tq s = true ∧ language_match lq s = true ∧
          keyword_match kq s = true)) ∧
    (∀ (l : List Snippet) (tq lq kq : Option String),
      (filterSnippets l tq lq kq).Sublist l) ∧
    (∀ s : Snippet, tag_match none s = true ∧ language_match none s = true ∧
      keyword_match none s = true) ∧
    (∀ (q : String) (s : Snippet), tag_match (some q) s = true ↔
      ∃ t ∈ termList q, contains_str (to_lowercase s.tag) (to_lowercase t) = true) ∧
    (∀ (q : String) (s : Snippet), s.language = none → language_match (some q) s = false) ∧
    (∀ (q : String) (s : Snippet) (lang : String), s.language = some lang →
      (language_match (some q) s = true ↔
        ∃ t ∈ termList q, contains_str (to_lowercase lang) (to_lowercase t) = true)) ∧
    (∀ (q : String) (s : Snippet), keyword_match (some q) s = true ↔
      ∃ k ∈ termList q,
        (contains_str (to_lowercase s.tag) (to_lowercase k) = true ∨
         (∃ d, s.description = some d ∧
            contains_str (to_lowercase d) (to_lowercase k) = true) ∨
         contains_str (to_lowercase s.code) (to_lowercase k) = true)) := by
  refine ⟨?_, ?_, ?_, ?_, ?_, ?_, ?_⟩
  · intro l tq lq kq s
    simp [filterSnippets, List.mem_filter, and_assoc]
  · intro l tq lq kq
    exact List.filter_sublist l
  · intro s
    exact ⟨rfl, rfl, rfl⟩
  · intro q s
    simp [tag_match, List.any_eq_true]
  · intro q s h
    simp [language_match, h]
  · intro q s lang h
    simp [language_match, h, List.any_eq_true]
  · intro q s
    cases hd : s.description with
    | none => simp [keyword_match, List.any_eq_true, hd]
    | some d => simp [keyword_match, List.any_eq_true, hd, or_assoc]

/-- Witness for C3: a snippet without a language never matches a language
filter. -/
theorem filter_dimension_semantics_witness :
    language_match (some "rust") exA = false :=
  filter_dimension_semantics.2.2.2.2.1 "rust" exA rfl

/-! ### C4: id is an exact-match post-filter -/

/-- C4: with an id supplied, `view_snippets` narrows the dimension-filtered
result to exactly the (first) surviving snippet carrying that id, and fails
with the not-found error naming the id when no surviving snippet carries it —
even if other snippets survived the dimension filters. -/
theorem view_id_post_filter (l : List Snippet) (tq lq kq : Option String) (i : Nat) :
    (∀ s : Snippet, (filterSnippets l tq lq kq).find? (fun t => t.id == i) = some s →
      view_snippets l (some i) tq lq kq = Except.ok [s] ∧ s.id = i ∧
        s ∈ filterSnippets l tq lq kq) ∧
    ((∀ s ∈ filterSnippets l tq lq kq, ¬ s.id = i) →
      view_snippets l (some i) tq lq kq = Except.error (view_id_missing_msg i)) := by
  constructor
  · intro s h
    refine ⟨?_, ?_, List.mem_of_find?_eq_some h⟩
    · simp [view_snippets, h]
    · have hp := List.find?_some h
      simpa using hp
  · intro h
    have hnone : (filterSnippets l tq lq kq).find? (fun t => t.id == i) = none := by
      rw [List.find?_eq_none]
      intro x hx
      simpa using h x hx
    simp [view_snippets, hnone]

/-- Witness for C4, the scenario in the specification: from the collection
with snippets of id 1 (tag `a`) and id 2 (tag `ab`), `tag:"a"` keeps both,
adding `id:2` keeps only the second, and `id:5` fails NotFound. -/
theorem view_id_post_filter_witness :
    (view_snippets [exA, exB] (some 2) (some "a") none none = Except.ok [exB] ∧
      exB.id = 2 ∧ exB ∈ filterSnippets [exA, exB] (some "a") none none) ∧
    view_snippets [exA, exB] (some 5) (some "a") none none
      = Except.error (view_id_missing_msg 5) := by
  constructor
  · exact (view_id_post_filter [exA, exB] (some "a") none none 2).1 exB (by decide)
  · exact (view_id_post_filter [exA, exB] (some "a") none none 5).2 (by decide)

/-! ### C5: next-id allocation -/

/-- C5: `generate_unique_id` returns 1 for a missing or unreadable store and
for an empty collection, returns the maximal existing id plus one otherwise,
and (within the u32 range the specification scopes to) is strictly greater
than every id present, so an id still present is never reused. -/
theorem generate_unique_id_spec :
    generate_unique_id LoadResult.missing = 1 ∧
    generate_unique_id LoadResult.corrupt = 1 ∧
    generate_unique_id (LoadResult.ok []) = 1 ∧
    (∀ l : List Snippet, generate_unique_id (LoadResult.ok l) = (maxId l + 1) % 2 ^ 32) ∧
    (∀ l : List Snippet, (∀ s ∈ l, s.id + 1 < 2 ^ 32) →
      ∀ s ∈ l, s.id < generate_unique_id (LoadResult.ok l)) := by
  refine ⟨rfl, rfl, rfl, fun l => rfl, ?_⟩
  intro l hbound s hs
  have h1 : s.id ≤ maxId l := le_maxId hs
  have h2 : maxId l + 1 < 2 ^ 32 := maxId_lt_bound hbound
  show s.id < (maxId l + 1) % 2 ^ 32
  rw [Nat.mod_eq_of_lt h2]
  omega

/-- Witness for C5 at a two-snippet collection. -/
theorem generate_unique_id_spec_witness :
    exC.id < generate_unique_id (LoadResult.ok [exA, exC]) :=
  generate_unique_id_spec.2.2.2.2 [exA, exC] (by decide) exC (by decide)

/-! ### C6: id uniqueness is preserved by every mutation -/

/-- Starting from a collection with pairwise-distinct ids, capture (with its
freshly allocated id, within the u32 range), capture into an absent store,
edit resolved by id, and deletion each persist a collection with
pairwise-distinct ids.  The edit-by-tag path with a single match does NOT
(see the C6 theorem below): it persists a duplicate of the edited id. -/
theorem ids_nodup_other_mutations :
    (∀ (col : List Snippet) (tag : String) (description : Option String)
        (code timestamp : String) (language : Option String) (l2 : List Snippet),
      IdsNodup col → (∀ s ∈ col, s.id + 1 < 2 ^ 32) →
      capture_snippet (LoadResult.ok col) tag description code timestamp language
        = Except.ok l2 →
      IdsNodup l2) ∧
    (∀ (tag : String) (description : Option String) (code timestamp : String)
        (language : Option String) (l2 : List Snippet),
      capture_snippet LoadResult.missing tag description code timestamp language
        = Except.ok l2 →
      IdsNodup l2) ∧
    (∀ (col : List Snippet) (i : Nat) (inp : EditInputs) (l2 : List Snippet),
      IdsNodup col → edit_snippet_by_id col i inp = Except.ok l2 → IdsNodup l2) ∧
    (∀ (col : List Snippet) (ids : List Nat) (confirm : String),
      IdsNodup col → IdsNodup (delete_snippet col ids confirm).store) := by
  refine ⟨?_, ?_, ?_, ?_⟩
  · intro col tag description code timestamp language l2 hnd hbound h
    simp only [capture_snippet, save_snippet, Except.ok.injEq] at h
    subst h
    unfold IdsNodup at hnd ⊢
    rw [List.map_append]
    have hgen : generate_unique_id (LoadResult.ok col) = maxId col + 1 := by
      show (maxId col + 1) % 2 ^ 32 = maxId col + 1
      exact Nat.mod_eq_of_lt (maxId_lt_bound hbound)
    have hnotmem : generate_unique_id (LoadResult.ok col) ∉ col.map Snippet.id := by
      intro hmem
      rcases List.mem_map.mp hmem with ⟨t, ht, htid⟩
      have := le_maxId ht
      omega
    have hperm : (col.map Snippet.id ++ [generate_unique_id (LoadResult.ok col)]).Perm
        (generate_unique_id (LoadResult.ok col) :: col.map Snippet.id) :=
      List.perm_append_singleton _ _
    apply hperm.symm.nodup
    exact List.nodup_cons.mpr ⟨hnotmem, hnd⟩
  · intro tag description code timestamp language l2 h
    simp only [capture_snippet, save_snippet, Except.ok.injEq] at h
    subst h
    simp [IdsNodup]
  · intro col i inp l2 hnd h
    simp only [edit_snippet_by_id] at h
    split at h
    case h_1 s rest heq =>
      simp only [Except.ok.injEq] at h
      subst h
      have hperm := extractById_perm heq
      unfold IdsNodup at hnd ⊢
      have hmap : (rest ++ [applyEdits s inp]).map Snippet.id
          = rest.map Snippet.id ++ [s.id] := by
        simp [applyEdits]
      rw [hmap]
      have hp1 : (rest.map Snippet.id ++ [s.id]).Perm (s.id :: rest.map Snippet.id) :=
        List.perm_append_singleton _ _
      have hp2 := hperm.map Snippet.id
      exact hp1.symm.nodup (hp2.nodup hnd)
    case h_2 => exact absurd h (by simp)
  · intro col ids confirm hnd
    rcases delete_snippet_store_cases col ids confirm with h | h
    · rw [h]; exact hnd
    · rw [h]
      unfold IdsNodup at hnd ⊢
      exact hnd.sublist ((foldl_removeFirst_sublist ids col).map Snippet.id)

/-- Instantiation of the preservation lemma: deleting id 1 from the
two-snippet example collection keeps the ids pairwise distinct. -/
theorem ids_nodup_other_mutations_example :
    IdsNodup (delete_snippet [exA, exB] [1] "y").store :=
  ids_nodup_other_mutations.2.2.2 [exA, exB] [1] "y"
    (show ([exA, exB].map Snippet.id).Nodup by decide)

/-- C6: the code violates the id-uniqueness invariant on the edit-by-tag path
with exactly one match.  Editing the sole snippet of tag `a` (id 1, a
collection with pairwise-distinct ids) persists both the original and the
edited value, so id 1 occurs twice afterwards.  The claim — like the
specification, whose data model declares the invariant and whose EditResolver
contract returns the resolved snippet removed from the collection — requires
the persisted ids to stay pairwise distinct, so the missing removal at
main.rs 827 is a code bug; the other mutation paths do preserve the invariant
(`ids_nodup_other_mutations`). -/
theorem edit_by_tag_single_match_duplicates_id :
    edit_snippet_by_tag [exA] "a" exInputs "" = Except.ok [exA, exAEdited] ∧
    IdsNodup [exA] ∧ ¬ IdsNodup [exA, exAEdited] := by
  refine ⟨rfl, ?_, ?_⟩
  · show ([exA].map Snippet.id).Nodup
    decide
  · show ¬ ([exA, exAEdited].map Snippet.id).Nodup
    decide

/-! ### C7: visible width -/

/-- C7: `visibleWidth` counts the scalar values left after removing every ANSI
CSI escape sequence; on strings without the escape character it coincides with
the plain character count, and on the red-colored string `hi` it is 2. -/
theorem visible_width_spec :
    (∀ s : String, (∀ c ∈ s.data, ¬ c = '\x1b') → visibleWidth s = s.length) ∧
    visibleWidth "\x1b[31mhi\x1b[0m" = 2 := by
  constructor
  · intro s h
    have h1 := strip_plain_append [] h
    rw [List.append_nil] at h1
    rw [visibleWidth_eq, h1]
    rw [show stripAnsiList [] = [] from rfl, List.append_nil]
    rfl
  · decide

/-- Witness for C7 on an escape-free string. -/
theorem visible_width_spec_witness : visibleWidth "hi" = "hi".length :=
  visible_width_spec.1 "hi" (by decide)

/-! ### C8: invalid disambiguation choices select nothing -/

/-- C8: one round of the tag-disambiguation prompt fails — selecting no
snippet — when the operator input does not parse as a u32 or parses to an id
that is not among the listed candidates; conversely any successful selection
is a listed candidate.  (The source loops, reporting an error and re-prompting
after each invalid answer; the model captures one round of that loop.) -/
theorem disambiguation_invalid_choice_fails (candidates : List Nat) (input : String) :
    (parse_u32 (trimStr input) = none → choose_snippet_id candidates input = none) ∧
    (∀ n : Nat, parse_u32 (trimStr input) = some n → ¬ n ∈ candidates →
      choose_snippet_id candidates input = none) ∧
    (∀ n : Nat, choose_snippet_id candidates input = some n →
      n ∈ candidates ∧ parse_u32 (trimStr input) = some n) := by
  refine ⟨?_, ?_, ?_⟩
  · intro h
    simp [choose_snippet_id, h]
  · intro n h hmem
    have hc : candidates.contains n = false := by
      cases hb : candidates.contains n
      · rfl
      · exact absurd (by simpa using hb) hmem
    simp only [choose_snippet_id, h, hc, Bool.false_eq_true, if_false]
  · intro n h
    simp only [choose_snippet_id] at h
    split at h
    case h_1 m hp =>
      split at h
      case isTrue hc =>
        simp only [Option.some.injEq] at h
        subst h
        exact ⟨by simpa using hc, hp⟩
      case isFalse hc => exact absurd h (by simp)
    case h_2 => exact absurd h (by simp)

/-- Witness for C8: a non-numeric answer and an unlisted numeric answer both
select nothing. -/
theorem disambiguation_invalid_choice_fails_witness :
    choose_snippet_id [1, 2] "abc" = none ∧ choose_snippet_id [1, 2] "7" = none := by
  constructor
  · exact (disambiguation_invalid_choice_fails [1, 2] "abc").1 (by decide)
  · exact (disambiguation_invalid_choice_fails [1, 2] "7").2.1 7 (by decide) (by decide)

/-! ### C10: blank prompt answers clear description and language -/

/-- C10: during an edit, a blank description answer sets the description to
`none` and a blank language answer sets the language to `none`, while a blank
tag answer preserves the current tag (a non-blank description answer is
stored trimmed). -/
theorem edit_blank_input_clears_optional_fields (s : Snippet) (inp : EditInputs) :
    (trimStr inp.newDescription = "" → (applyEdits s inp).description = none) ∧
    (trimStr inp.newLanguage = "" → (applyEdits s inp).language = none) ∧
    (trimStr inp.newTag = "" → (applyEdits s inp).tag = s.tag) ∧
    (¬ trimStr inp.newDescription = "" →
      (applyEdits s inp).description = some (trimStr inp.newDescription)) := by
  refine ⟨?_, ?_, ?_, ?_⟩ <;> intro h <;> simp [applyEdits, h]

/-- Witness for C10: blank answers on the example snippet that has both a
description and a language clear both fields and keep the tag. -/
theorem edit_blank_input_clears_optional_fields_witness :
    (applyEdits exB exInputs).description = none ∧
    (applyEdits exB exInputs).language = none ∧
    (applyEdits exB exInputs).tag = exB.tag := by
  refine ⟨?_, ?_, ?_⟩
  · exact (edit_blank_input_clears_optional_fields exB exInputs).1 (by decide)
  · exact (edit_blank_input_clears_optional_fields exB exInputs).2.1 (by decide)
  · exact (edit_blank_input_clears_optional_fields exB exInputs).2.2.1 (by decide)

end Codevault
